import Mathlib

/-!
Verification development for the BitX-Sessions popup session-management core.

The definitions below are a shallow embedding of `src/popup/index.ts`
(`PopupService` and the import helper `mergeSessions`).  Effectful
collaborators are made explicit:

* the capture/apply bridge (`chromeApi.sendMessage`) is a `BridgeResponse`
  value passed in as an argument;
* `generateId()` and `Date.now()` are the arguments `newId` and `now`;
* persistent storage (`saveStorageData`) is dropped: it writes the in-memory
  state verbatim, so the in-memory `PopupState` is the whole store.

In the TypeScript source every `throw` happens before any mutation of
`this.state`, so an operation is modelled as a pure function returning
`Except ExtensionError PopupState`: an `.error` result corresponds to a
thrown error with the store left exactly as it was.  The outer
`handleError` wrapping (which only prefixes an operation tag onto the
message) is omitted; errors carry the inner message thrown at the
failure site.
-/

namespace BitX

/-- The opaque captured-session payload (cookies and storage) owned by the
capture/apply bridge.  The core copies it around but never inspects it, so
it is modelled as an opaque bag of key/value pairs. -/
structure StoredSession where
  blob : List (String × String)
deriving Repr, DecidableEq

/-- Modelled from the spec: `storedSessionDefaultValue` is imported from
`@popup/utils/defaultValue`, whose source is not in the repository snapshot.
Per the spec and its use sites (`response.data ?? storedSessionDefaultValue`)
it is the default empty stored-session payload. -/
def storedSessionDefaultValue : StoredSession := ⟨[]⟩

/-- One saved session (the `SessionData` record of `@shared/types`):
identity, display metadata, domain scoping, ordering position and the
opaque captured payload.  `order` is optional because legacy records may
lack it (`s.order ?? 0` in the source). -/
structure SessionData where
  id : String
  name : String
  domain : String
  createdAt : Int
  lastUsed : Int
  order : Option Int
  payload : StoredSession
deriving Repr, DecidableEq

/-- The `activeSessions` record: a JavaScript object mapping a domain to the
id of the session currently active for that domain.  Modelled as an
association list whose observable behaviour is `lookupActive`. -/
abbrev ActiveSessions := List (String × String)

/-- Reading `activeSessions[d]`. -/
def lookupActive (m : ActiveSessions) (d : String) : Option String :=
  (m.find? (fun p => p.1 == d)).map (fun p => p.2)

/-- `delete activeSessions[d]` (JavaScript object key removal). -/
def eraseActive (m : ActiveSessions) (d : String) : ActiveSessions :=
  m.filter (fun p => p.1 != d)

/-- `activeSessions[d] = v` (JavaScript object key assignment). -/
def setActive (m : ActiveSessions) (d : String) (v : String) : ActiveSessions :=
  eraseActive m d ++ [(d, v)]

/-- The in-memory popup state held by `PopupService` (`PopupState` of
`@shared/types`), minus the raw `chrome.tabs.Tab` handle whose only use in
the operations is the tab id forwarded to the bridge. -/
structure PopupState where
  currentDomain : String
  sessions : List SessionData
  activeSessions : ActiveSessions
  currentRenameSessionId : String := ""
  currentDeleteSessionId : String := ""
deriving Repr, DecidableEq

/-- `ExtensionError` from `@shared/utils/errorHandling`: an error carrying a
message string. -/
structure ExtensionError where
  msg : String
deriving Repr, DecidableEq

/-- A reply from the background agent
(`{success: bool, data?, error?: string}`). -/
structure BridgeResponse (α : Type) where
  success : Bool
  data : Option α := none
  error : Option String := none
deriving Repr, DecidableEq

/-- JavaScript `o || fallback` on an optional string: `none` and the empty
string are falsy. -/
def orFallback (o : Option String) (fallback : String) : String :=
  match o with
  | some s => if s.isEmpty then fallback else s
  | none => fallback

/-- JavaScript `String.prototype.trim()`: strip whitespace from both ends.
Defined over the character list so that it evaluates by kernel reduction
(`String.trim` of core Lean is definitionally opaque). -/
def strTrim (s : String) : String :=
  ⟨((s.data.dropWhile Char.isWhitespace).reverse.dropWhile Char.isWhitespace).reverse⟩

/-- JavaScript `String.prototype.toLowerCase()` on the character list. -/
def strLower (s : String) : String :=
  ⟨s.data.map Char.toLower⟩

/-- Modelled from the spec: `validateSessionName` lives in
`@shared/utils/validation`, which is not in the repository snapshot.  Per
the spec it checks that the name is non-empty after trimming and within a
length bound (the exact bound is not in the snapshot; 100 is used here),
failing with a validation error otherwise; the trimmed name is returned. -/
def validateSessionName (name : String) : Except ExtensionError String :=
  let t := strTrim name
  if t == "" then .error ⟨"Session name cannot be empty"⟩
  else if 100 < t.length then .error ⟨"Session name is too long"⟩
  else .ok t

/-- Replace the first element satisfying `p` by its image under `f`
(JavaScript `find` followed by in-place mutation of the found object). -/
def updateFirst (p : α → Bool) (f : α → α) : List α → List α
  | [] => []
  | x :: xs => if p x then f x :: xs else x :: updateFirst p f xs

/-- `Math.max(...l)` for a non-empty list, `none` when empty. -/
def listMax : List Int → Option Int
  | [] => none
  | x :: xs => some (xs.foldl max x)

/-- `PopupService.findSessionByName`: first session in `domain` whose
trimmed lowercased name equals the trimmed lowercased `name`, excluding
`excludeId` when given. -/
def findSessionByName (sessions : List SessionData) (domain : String)
    (name : String) (excludeId : Option String) : Option SessionData :=
  let target := strLower (strTrim name)
  sessions.find? (fun s =>
    s.domain == domain && (some s.id != excludeId) && strLower (strTrim s.name) == target)

/-- `PopupService.saveCurrentSession`: validate the name, capture the live
session through the bridge (`resp`), compute `order` as domain-max + 1
(`-1 + 1 = 0` when the domain has no sessions), append the new session,
mark it active for the current domain and return it. -/
def saveCurrentSession (st : PopupState) (name : String)
    (resp : BridgeResponse StoredSession) (newId : String) (now : Int) :
    Except ExtensionError (PopupState × SessionData) :=
  match validateSessionName name with
  | .error e => .error e
  | .ok validatedName =>
    if resp.success then
      let storedSession := resp.data.getD storedSessionDefaultValue
      let domainSessions := st.sessions.filter (fun s => s.domain == st.currentDomain)
      let maxOrder := (listMax (domainSessions.map (fun s => s.order.getD 0))).getD (-1)
      let newSession : SessionData :=
        { id := newId
          name := validatedName
          domain := st.currentDomain
          createdAt := now
          lastUsed := now
          order := some (maxOrder + 1)
          payload := storedSession }
      .ok ({ st with
              sessions := st.sessions ++ [newSession]
              activeSessions := setActive st.activeSessions st.currentDomain newSession.id },
           newSession)
    else .error ⟨orFallback resp.error "Failed to get current session"⟩

/-- `PopupService.overwriteSessionWithCurrent`: update an existing session
in place from the current tab capture, preserving `id`, `order`,
`createdAt` and `domain`, setting `name` (when given) and `lastUsed`, and
marking the session active for the current domain. -/
def overwriteSessionWithCurrent (st : PopupState) (sessionId : String)
    (name : Option String) (resp : BridgeResponse StoredSession) (now : Int) :
    Except ExtensionError PopupState :=
  match st.sessions.find? (fun s => s.id == sessionId) with
  | none => .error ⟨"Session not found"⟩
  | some session =>
    if session.domain != st.currentDomain then
      .error ⟨"Cannot overwrite a session from a different domain"⟩
    else
      match (match name with
             | some n => validateSessionName n
             | none => .ok session.name) with
      | .error e => .error e
      | .ok validatedName =>
        if resp.success then
          let storedSession := resp.data.getD storedSessionDefaultValue
          .ok { st with
                  sessions := updateFirst (fun s => s.id == sessionId)
                    (fun s => { s with payload := storedSession
                                       name := validatedName
                                       lastUsed := now }) st.sessions
                  activeSessions := setActive st.activeSessions st.currentDomain session.id }
        else .error ⟨orFallback resp.error "Failed to get current session"⟩

/-- `PopupService.switchToSession`: ask the bridge to apply the stored
session to the tab; on success mark it active for the current domain and
bump its `lastUsed`. -/
def switchToSession (st : PopupState) (sessionId : String)
    (resp : BridgeResponse Unit) (now : Int) : Except ExtensionError PopupState :=
  match st.sessions.find? (fun s => s.id == sessionId) with
  | none => .error ⟨"Session not found"⟩
  | some _ =>
    if resp.success then
      .ok { st with
              activeSessions := setActive st.activeSessions st.currentDomain sessionId
              sessions := updateFirst (fun s => s.id == sessionId)
                (fun s => { s with lastUsed := now }) st.sessions }
    else .error ⟨orFallback resp.error "Failed to switch session"⟩

/-- `PopupService.createNewSession`: clear the live tab through the bridge
and drop the current domain's active pointer; no stored session is
deleted. -/
def createNewSession (st : PopupState) (resp : BridgeResponse Unit) :
    Except ExtensionError PopupState :=
  if resp.success then
    .ok { st with activeSessions := eraseActive st.activeSessions st.currentDomain }
  else .error ⟨orFallback resp.error "Failed to clear session"⟩

/-- `PopupService.renameSession`: rename a session; on a same-domain
case-insensitive trimmed name conflict, fail unless `overwrite` is set, in
which case the conflicting session is removed first (redirecting the
domain's active pointer to the renamed session when it pointed at the
conflict). -/
def renameSession (st : PopupState) (sessionId : String) (newName : String)
    (overwrite : Bool) : Except ExtensionError PopupState :=
  match st.sessions.find? (fun s => s.id == sessionId) with
  | none => .error ⟨"Session not found"⟩
  | some session =>
    match validateSessionName newName with
    | .error e => .error e
    | .ok validatedName =>
      match findSessionByName st.sessions session.domain validatedName (some sessionId) with
      | some conflict =>
        if !overwrite then .error ⟨"Session name already exists"⟩
        else
          let sessions₁ := st.sessions.filter (fun s => s.id != conflict.id)
          let active₁ :=
            if lookupActive st.activeSessions session.domain == some conflict.id then
              setActive st.activeSessions session.domain sessionId
            else st.activeSessions
          .ok { st with
                  sessions := updateFirst (fun s => s.id == sessionId)
                    (fun s => { s with name := validatedName }) sessions₁
                  activeSessions := active₁ }
      | none =>
        .ok { st with
                sessions := updateFirst (fun s => s.id == sessionId)
                  (fun s => { s with name := validatedName }) st.sessions }

/-- `PopupService.deleteSession`: unconditionally filter the id out of the
session list (a no-op when absent) and clear the current domain's active
pointer when it pointed at that id.  The source has no failure path. -/
def deleteSession (st : PopupState) (sessionId : String) : PopupState :=
  let sessions' := st.sessions.filter (fun s => s.id != sessionId)
  let active' :=
    if lookupActive st.activeSessions st.currentDomain == some sessionId then
      eraseActive st.activeSessions st.currentDomain
    else st.activeSessions
  { st with sessions := sessions', activeSessions := active' }

/-- The assignment loop of `reorderSessions`: for each `(index, id)` pair
in sequence, set `order := index` on the first current-domain session with
that id (`domainSessions.find` mutating the found object). -/
def reorderFold (current : String) (ps : List (Nat × String))
    (l : List SessionData) : List SessionData :=
  ps.foldl
    (fun acc p => updateFirst
      (fun s => s.domain == current && s.id == p.2)
      (fun s => { s with order := some (p.1 : Int) }) acc)
    l

/-- `PopupService.reorderSessions`: guard that the supplied id list has the
current domain's session count and covers every current-domain session id,
then assign `order := index` following the supplied sequence. -/
def reorderSessions (st : PopupState) (sessionIds : List String) :
    Except ExtensionError PopupState :=
  let domainSessions := st.sessions.filter (fun s => s.domain == st.currentDomain)
  if sessionIds.length != domainSessions.length then
    .error ⟨"Session count mismatch during reorder operation"⟩
  else if !(domainSessions.all (fun s => sessionIds.contains s.id)) then
    .error ⟨"Invalid session IDs provided for reorder operation"⟩
  else
    .ok { st with sessions := reorderFold st.currentDomain sessionIds.enum st.sessions }

/-- `mergeSessions` (module-level import helper): with a non-empty import,
drop every existing session whose domain is among the truthy domains of the
imported sessions (`filter(Boolean)` drops empty-string domains) and append
the imported sessions; an empty import leaves storage untouched. -/
def mergeSessions (existing importedSessions : List SessionData) : List SessionData :=
  if importedSessions.length == 0 then existing
  else
    let importedDomains := (importedSessions.map (fun s => s.domain)).filter (fun d => d != "")
    let keptSessions := existing.filter (fun s => !importedDomains.contains s.domain)
    keptSessions ++ importedSessions

/-- The active-pointer invariant of the spec's data model: a recorded
active id must belong to a stored session whose domain is the key it is
recorded under. -/
def activeInvariant (st : PopupState) : Prop :=
  ∀ d sid, lookupActive st.activeSessions d = some sid →
    ∃ s ∈ st.sessions, s.id = sid ∧ s.domain = d

/-- The session record built by the successful branch of
`saveCurrentSession` (named here so that unfolding lemmas can quote it). -/
def savedSession (st : PopupState) (resp : BridgeResponse StoredSession)
    (newId : String) (now : Int) (v : String) : SessionData :=
  { id := newId
    name := v
    domain := st.currentDomain
    createdAt := now
    lastUsed := now
    order := some ((listMax ((st.sessions.filter
      (fun s => s.domain == st.currentDomain)).map (fun s => s.order.getD 0))).getD (-1) + 1)
    payload := resp.data.getD storedSessionDefaultValue }

/-! ### Concrete fixtures used by witnesses and counterexamples -/

/-- A captured payload used in concrete scenarios. -/
def exPayload : StoredSession := ⟨[("sid", "abc123")]⟩

/-- Scenario session A of the spec: `example.com`, order 0, name "work". -/
def exA : SessionData :=
  { id := "a", name := "work", domain := "example.com",
    createdAt := 1, lastUsed := 1, order := some 0, payload := ⟨[]⟩ }

/-- Scenario session B of the spec: `example.com`, order 1, name "home". -/
def exB : SessionData :=
  { id := "b", name := "home", domain := "example.com",
    createdAt := 2, lastUsed := 2, order := some 1, payload := ⟨[]⟩ }

/-- A session of an unrelated domain `b.com`. -/
def exC : SessionData :=
  { id := "c", name := "other", domain := "b.com",
    createdAt := 3, lastUsed := 3, order := some 0, payload := ⟨[]⟩ }

/-- A two-domain store with `example.com` as the current domain, A active
there and C active for `b.com`. -/
def exSt : PopupState :=
  { currentDomain := "example.com"
    sessions := [exA, exB, exC]
    activeSessions := [("example.com", "a"), ("b.com", "c")] }

/-- The state produced by switching the `example.com` tab to the `b.com`
session C: the pointer for `example.com` now names a `b.com` session. -/
def exStSwitched : PopupState :=
  { currentDomain := "example.com"
    sessions := [exA, exB, { exC with lastUsed := 9 }]
    activeSessions := [("b.com", "c"), ("example.com", "c")] }

/-- An existing session whose domain is the empty string. -/
def exEmptyDomE : SessionData := { exA with id := "e", domain := "" }

/-- An imported session whose domain is the empty string. -/
def exEmptyDomI : SessionData := { exB with id := "i", domain := "" }

/-! ### Helper lemmas about the association-list map -/

theorem find?_eraseActive_self (m : ActiveSessions) (d : String) :
    (eraseActive m d).find? (fun p => p.1 == d) = none := by
  rw [List.find?_eq_none]
  intro x hx
  have := List.of_mem_filter hx
  simpa [bne] using this

theorem find?_eraseActive_ne (m : ActiveSessions) (d d' : String) (h : d' ≠ d) :
    (eraseActive m d).find? (fun p => p.1 == d') = m.find? (fun p => p.1 == d') := by
  unfold eraseActive
  rw [List.find?_filter]
  congr 1
  funext a
  by_cases ha : a.1 = d'
  · have : (a.1 != d) = true := by rw [ha]; simp [bne, h]
    simp [ha, this, h]
  · simp [ha]

theorem lookupActive_set_self (m : ActiveSessions) (d v : String) :
    lookupActive (setActive m d v) d = some v := by
  simp [lookupActive, setActive, List.find?_append, find?_eraseActive_self, List.find?]

theorem lookupActive_set_ne (m : ActiveSessions) (d v d' : String) (h : d' ≠ d) :
    lookupActive (setActive m d v) d' = lookupActive m d' := by
  simp only [lookupActive, setActive, List.find?_append, find?_eraseActive_ne m d d' h]
  have hdd : (d == d') = false := beq_eq_false_iff_ne.mpr (Ne.symm h)
  have : ([(d, v)] : ActiveSessions).find? (fun p => p.1 == d') = none := by
    simp [List.find?, hdd]
  rw [this, Option.or_none]

theorem lookupActive_erase_self (m : ActiveSessions) (d : String) :
    lookupActive (eraseActive m d) d = none := by
  simp [lookupActive, find?_eraseActive_self]

theorem lookupActive_erase_ne (m : ActiveSessions) (d d' : String) (h : d' ≠ d) :
    lookupActive (eraseActive m d) d' = lookupActive m d' := by
  simp [lookupActive, find?_eraseActive_ne m d d' h]

/-! ### Helper lemmas about `updateFirst` -/

theorem updateFirst_of_forall_not {p : α → Bool} {f : α → α} {l : List α}
    (h : ∀ x ∈ l, p x = false) : updateFirst p f l = l := by
  induction l with
  | nil => rfl
  | cons x xs ih =>
    have hx := h x (List.mem_cons_self _ _)
    simp only [updateFirst, hx, Bool.false_eq_true, if_false]
    rw [ih (fun y hy => h y (List.mem_cons_of_mem _ hy))]

theorem length_updateFirst (p : α → Bool) (f : α → α) (l : List α) :
    (updateFirst p f l).length = l.length := by
  induction l with
  | nil => rfl
  | cons x xs ih =>
    simp only [updateFirst]
    cases hx : p x with
    | true => simp
    | false => simp [ih]

theorem updateFirst_decomp {p : α → Bool} {l : List α} {a : α}
    (f : α → α) (h : l.find? p = some a) :
    ∃ l₁ l₂, l = l₁ ++ a :: l₂ ∧ (∀ x ∈ l₁, p x = false) ∧
      updateFirst p f l = l₁ ++ f a :: l₂ := by
  induction l with
  | nil => simp [List.find?] at h
  | cons x xs ih =>
    simp only [List.find?_cons] at h
    cases hx : p x with
    | true =>
      simp only [hx, cond_true, Option.some.injEq] at h
      subst h
      exact ⟨[], xs, by simp, by simp, by simp [updateFirst, hx]⟩
    | false =>
      simp only [hx, cond_false] at h
      obtain ⟨l₁, l₂, heq, hnot, hupd⟩ := ih h
      refine ⟨x :: l₁, l₂, by simp [heq], ?_, ?_⟩
      · intro y hy
        rcases List.mem_cons.mp hy with rfl | hy
        · exact hx
        · exact hnot y hy
      · simp [updateFirst, hx, hupd]

/-- Every element of an `updateFirst` result comes from the original list,
either untouched or as the image under `f` of the updated element. -/
theorem mem_updateFirst {p : α → Bool} {f : α → α} {l : List α} {t : α}
    (ht : t ∈ updateFirst p f l) : ∃ u ∈ l, t = u ∨ t = f u := by
  induction l with
  | nil => simp [updateFirst] at ht
  | cons x xs ih =>
    simp only [updateFirst] at ht
    by_cases hx : p x = true
    · simp only [hx, if_true] at ht
      rcases List.mem_cons.mp ht with rfl | ht'
      · exact ⟨x, List.mem_cons_self _ _, Or.inr rfl⟩
      · exact ⟨t, List.mem_cons_of_mem _ ht', Or.inl rfl⟩
    · simp only [hx, if_false] at ht
      rcases List.mem_cons.mp ht with rfl | ht'
      · exact ⟨t, List.mem_cons_self _ _, Or.inl rfl⟩
      · obtain ⟨u, hu, hor⟩ := ih ht'
        exact ⟨u, List.mem_cons_of_mem _ hu, hor⟩

theorem exists_mem_updateFirst (p : α → Bool) (f : α → α) {l : List α} {s : α}
    (hs : s ∈ l) : ∃ t ∈ updateFirst p f l, t = s ∨ t = f s := by
  induction l with
  | nil => simp at hs
  | cons x xs ih =>
    simp only [updateFirst]
    cases hx : p x with
    | true =>
      rcases List.mem_cons.mp hs with rfl | hs
      · exact ⟨f s, by simp⟩
      · exact ⟨s, by simp [hs]⟩
    | false =>
      rcases List.mem_cons.mp hs with rfl | hs
      · exact ⟨s, by simp⟩
      · obtain ⟨t, ht, hor⟩ := ih hs
        exact ⟨t, by simp [ht], hor⟩

/-- Every session keeps a same-id, same-domain representative through an
`updateFirst` whose update function preserves `id` and `domain`. -/
theorem exists_same_id_domain_updateFirst (p : SessionData → Bool)
    (f : SessionData → SessionData)
    (hf : ∀ s, (f s).id = s.id ∧ (f s).domain = s.domain)
    {l : List SessionData} {s : SessionData} (hs : s ∈ l) :
    ∃ t ∈ updateFirst p f l, t.id = s.id ∧ t.domain = s.domain := by
  obtain ⟨t, ht, hor⟩ := exists_mem_updateFirst p f hs
  rcases hor with rfl | rfl
  · exact ⟨t, ht, rfl, rfl⟩
  · exact ⟨f s, ht, (hf s).1, (hf s).2⟩

/-! ### Helper lemmas about `listMax` -/

theorem self_le_foldl_max (x : Int) (xs : List Int) : x ≤ xs.foldl max x := by
  induction xs generalizing x with
  | nil => exact le_refl x
  | cons y ys ih => exact le_trans (le_max_left x y) (ih (max x y))

theorem mem_le_foldl_max {y : Int} {xs : List Int} (hy : y ∈ xs) (x : Int) :
    y ≤ xs.foldl max x := by
  induction xs generalizing x with
  | nil => simp at hy
  | cons z zs ih =>
    rcases List.mem_cons.mp hy with rfl | hy'
    · exact le_trans (le_max_right x y) (self_le_foldl_max (max x y) zs)
    · exact ih hy' (max x z)

theorem foldl_max_mem (x : Int) (xs : List Int) :
    xs.foldl max x = x ∨ xs.foldl max x ∈ xs := by
  induction xs generalizing x with
  | nil => exact Or.inl rfl
  | cons y ys ih =>
    rcases ih (max x y) with h | h
    · rcases max_choice x y with hm | hm
      · exact Or.inl (by rw [List.foldl_cons, h, hm])
      · exact Or.inr (by rw [List.foldl_cons, h, hm]; exact List.mem_cons_self _ _)
    · exact Or.inr (List.mem_cons_of_mem _ (by rw [List.foldl_cons]; exact h))

theorem listMax_ge {l : List Int} {m x : Int} (h : listMax l = some m) (hx : x ∈ l) :
    x ≤ m := by
  cases l with
  | nil => simp at hx
  | cons y ys =>
    simp only [listMax, Option.some.injEq] at h
    subst h
    rcases List.mem_cons.mp hx with rfl | hx'
    · exact self_le_foldl_max x ys
    · exact mem_le_foldl_max hx' y

theorem listMax_mem {l : List Int} {m : Int} (h : listMax l = some m) : m ∈ l := by
  cases l with
  | nil => simp [listMax] at h
  | cons y ys =>
    simp only [listMax, Option.some.injEq] at h
    subst h
    rcases foldl_max_mem y ys with h | h
    · rw [h]; exact List.mem_cons_self _ _
    · exact List.mem_cons_of_mem _ h

/-! ### Nodup ids -/

theorem eq_of_nodup_ids {l : List SessionData}
    (h : (l.map SessionData.id).Nodup) {a b : SessionData}
    (ha : a ∈ l) (hb : b ∈ l) (hid : a.id = b.id) : a = b := by
  induction l with
  | nil => simp at ha
  | cons x xs ih =>
    simp only [List.map_cons, List.nodup_cons] at h
    rcases List.mem_cons.mp ha with rfl | ha' <;>
      rcases List.mem_cons.mp hb with rfl | hb'
    · rfl
    · exact absurd (hid ▸ List.mem_map_of_mem SessionData.id hb') h.1
    · exact absurd (hid ▸ List.mem_map_of_mem SessionData.id ha') h.1
    · exact ih h.2 ha' hb'

/-! ### C1: overwrite-in-place preserves identity metadata -/

/-- Unfolding lemma: the successful branch of `overwriteSessionWithCurrent`. -/
theorem overwrite_eq_ok (st : PopupState) (sid : String) (name : Option String)
    (resp : BridgeResponse StoredSession) (now : Int) (s : SessionData) (v : String)
    (hfind : st.sessions.find? (fun t => t.id == sid) = some s)
    (hdom : s.domain = st.currentDomain)
    (hval : (match name with
             | some n => validateSessionName n
             | none => Except.ok s.name) = Except.ok v)
    (hsucc : resp.success = true) :
    overwriteSessionWithCurrent st sid name resp now =
      .ok { st with
              sessions := updateFirst (fun t => t.id == sid)
                (fun t => { t with payload := resp.data.getD storedSessionDefaultValue
                                   name := v
                                   lastUsed := now }) st.sessions
              activeSessions := setActive st.activeSessions st.currentDomain s.id } := by
  have hbne : (s.domain != st.currentDomain) = false := by simp [hdom]
  simp only [overwriteSessionWithCurrent, hfind, hbne, Bool.false_eq_true, if_false, hval, hsucc,
    if_true]

/-- C1: when the target session's domain is the current tab's domain and
the capture bridge succeeds, `overwriteSessionWithCurrent` replaces the
target in place, leaving its `id`, `order`, `createdAt` and `domain`
exactly unchanged, changing only its `name` (and only to the validated
new name when one is given), its captured payload and its `lastUsed`;
every other stored session is untouched. -/
theorem claim_C1_overwrite_preserves_identity
    (st : PopupState) (sid : String) (name : Option String)
    (resp : BridgeResponse StoredSession) (now : Int) (s : SessionData) (v : String)
    (hfind : st.sessions.find? (fun t => t.id == sid) = some s)
    (hdom : s.domain = st.currentDomain)
    (hval : (match name with
             | some n => validateSessionName n
             | none => Except.ok s.name) = Except.ok v)
    (hsucc : resp.success = true) :
    ∃ st' l₁ l₂ s',
      overwriteSessionWithCurrent st sid name resp now = .ok st' ∧
      st.sessions = l₁ ++ s :: l₂ ∧
      st'.sessions = l₁ ++ s' :: l₂ ∧
      s'.id = s.id ∧ s'.order = s.order ∧ s'.createdAt = s.createdAt ∧ s'.domain = s.domain ∧
      (∃ payload', s' = { s with name := v, payload := payload', lastUsed := now }) ∧
      (name = none → s'.name = s.name) := by
  obtain ⟨l₁, l₂, heq, -, hupd⟩ :=
    updateFirst_decomp (l := st.sessions)
      (fun t => { t with payload := resp.data.getD storedSessionDefaultValue
                         name := v
                         lastUsed := now }) hfind
  refine ⟨_, l₁, l₂,
    { s with payload := resp.data.getD storedSessionDefaultValue, name := v, lastUsed := now },
    overwrite_eq_ok st sid name resp now s v hfind hdom hval hsucc,
    heq, by simpa using hupd, rfl, rfl, rfl, rfl,
    ⟨resp.data.getD storedSessionDefaultValue, rfl⟩, ?_⟩
  intro hnone
  subst hnone
  simp only [Except.ok.injEq] at hval
  simp [hval]

/-- Witness for C1 on the concrete two-domain store: overwriting session
`a` with a fresh capture and the new name `fresh`. -/
theorem claim_C1_overwrite_preserves_identity_witness :
    ∃ st' l₁ l₂ s',
      overwriteSessionWithCurrent exSt "a" (some "fresh") ⟨true, some exPayload, none⟩ 42 = .ok st' ∧
      exSt.sessions = l₁ ++ exA :: l₂ ∧
      st'.sessions = l₁ ++ s' :: l₂ ∧
      s'.id = exA.id ∧ s'.order = exA.order ∧ s'.createdAt = exA.createdAt ∧
      s'.domain = exA.domain ∧
      (∃ payload', s' = { exA with name := "fresh", payload := payload', lastUsed := 42 }) ∧
      (some "fresh" = none → s'.name = exA.name) :=
  claim_C1_overwrite_preserves_identity exSt "a" (some "fresh") ⟨true, some exPayload, none⟩ 42
    exA "fresh" rfl rfl rfl rfl

/-! ### C4 and C5: rename conflicts -/

/-- C4: when the renamed session exists, the new name validates, and
another session of the same domain matches it case-insensitively after
trimming, `renameSession` with `overwrite = false` fails with the
name-conflict error.  In this embedding an `.error` result is a throw
taken before any mutation, so the store is left exactly unchanged. -/
theorem claim_C4_rename_conflict_rejected
    (st : PopupState) (sid newName : String) (s c : SessionData) (v : String)
    (hfind : st.sessions.find? (fun t => t.id == sid) = some s)
    (hval : validateSessionName newName = .ok v)
    (hconf : findSessionByName st.sessions s.domain v (some sid) = some c) :
    renameSession st sid newName false = .error ⟨"Session name already exists"⟩ := by
  simp only [renameSession, hfind, hval, hconf, Bool.not_false, if_true]

/-- Witness for C4 on the spec's scenario: renaming B to `work` while A is
already named `work` in `example.com`. -/
theorem claim_C4_rename_conflict_rejected_witness :
    renameSession exSt "b" "work" false = .error ⟨"Session name already exists"⟩ :=
  claim_C4_rename_conflict_rejected exSt "b" "work" exB exA "work" rfl rfl rfl

/-- C5: with `overwrite = true` and a conflicting session `c` (same
domain, different id, trimmed case-insensitive name match), `renameSession`
removes `c`, applies the validated new name to the target session, and
redirects the domain's active pointer to the target whenever it pointed at
`c`. -/
theorem claim_C5_rename_overwrite
    (st : PopupState) (sid newName : String) (s c : SessionData) (v : String)
    (hfind : st.sessions.find? (fun t => t.id == sid) = some s)
    (hval : validateSessionName newName = .ok v)
    (hconf : findSessionByName st.sessions s.domain v (some sid) = some c) :
    ∃ st', renameSession st sid newName true = .ok st' ∧
      (∀ t ∈ st'.sessions, t.id ≠ c.id) ∧
      (∃ t ∈ st'.sessions, t.id = sid ∧ t.name = v) ∧
      (lookupActive st.activeSessions s.domain = some c.id →
        lookupActive st'.activeSessions s.domain = some sid) := by
  have hok : renameSession st sid newName true =
      .ok { st with
              sessions := updateFirst (fun t => t.id == sid)
                (fun t => { t with name := v })
                (st.sessions.filter (fun t => t.id != c.id))
              activeSessions :=
                if lookupActive st.activeSessions s.domain == some c.id then
                  setActive st.activeSessions s.domain sid
                else st.activeSessions } := by
    simp only [renameSession, hfind, hval, hconf, Bool.not_true, Bool.false_eq_true, if_false]
  have hcid : c.id ≠ sid := by
    have hp := List.find?_some hconf
    simp only [Bool.and_eq_true, bne_iff_ne, ne_eq] at hp
    intro h
    exact hp.1.2 (by simp [h])
  have hsid : s.id = sid := by
    have := List.find?_some hfind
    simpa using this
  refine ⟨_, hok, ?_, ?_, ?_⟩
  · intro t ht
    obtain ⟨u, hu, hor⟩ := mem_updateFirst ht
    have hu' : u.id ≠ c.id := by
      have := List.of_mem_filter hu
      simpa using this
    rcases hor with rfl | rfl
    · exact hu'
    · simpa using hu'
  · have hsmem : s ∈ st.sessions.filter (fun t => t.id != c.id) := by
      refine List.mem_filter.mpr ⟨List.mem_of_find?_eq_some hfind, ?_⟩
      simp [hsid, hcid.symm]
    have hfsome : ∃ a, (st.sessions.filter (fun t => t.id != c.id)).find?
        (fun t => t.id == sid) = some a := by
      rw [← Option.isSome_iff_exists, List.find?_isSome]
      exact ⟨s, hsmem, by simp [hsid]⟩
    obtain ⟨a, ha⟩ := hfsome
    obtain ⟨l₁, l₂, -, -, hupd⟩ := updateFirst_decomp (fun t => { t with name := v }) ha
    have haid : a.id = sid := by simpa using List.find?_some ha
    refine ⟨{ a with name := v }, ?_, by simpa using haid, rfl⟩
    simp only [hupd]
    exact List.mem_append.mpr (Or.inr (List.mem_cons_self _ _))
  · intro hpt
    have hcond : (lookupActive st.activeSessions s.domain == some c.id) = true := by
      simp [hpt]
    simp only [hcond, if_true]
    exact lookupActive_set_self st.activeSessions s.domain sid

/-- Witness for C5 on the spec's scenario: renaming B to `work` with
overwrite deletes A, renames B, and redirects the active pointer (A was
active for `example.com`). -/
theorem claim_C5_rename_overwrite_witness :
    ∃ st', renameSession exSt "b" "work" true = .ok st' ∧
      (∀ t ∈ st'.sessions, t.id ≠ exA.id) ∧
      (∃ t ∈ st'.sessions, t.id = "b" ∧ t.name = "work") ∧
      (lookupActive exSt.activeSessions exB.domain = some exA.id →
        lookupActive st'.activeSessions exB.domain = some "b") :=
  claim_C5_rename_overwrite exSt "b" "work" exB exA "work" rfl rfl rfl

/-! ### C8, C10 and C3: saving the current session -/

/-- Unfolding lemma: the successful branch of `saveCurrentSession`. -/
theorem save_eq_ok (st : PopupState) (name : String) (resp : BridgeResponse StoredSession)
    (newId : String) (now : Int) (v : String)
    (hval : validateSessionName name = .ok v) (hsucc : resp.success = true) :
    saveCurrentSession st name resp newId now =
      .ok ({ st with
              sessions := st.sessions ++ [savedSession st resp newId now v]
              activeSessions := setActive st.activeSessions st.currentDomain newId },
           savedSession st resp newId now v) := by
  simp only [saveCurrentSession, hval, hsucc, if_true, savedSession]

/-- C8: when name validation and the capture bridge succeed,
`saveCurrentSession` appends exactly one new session, whose `order` is one
greater than the maximum order among the current domain's existing
sessions (0 when the domain has none; a missing legacy order counts as 0,
mirroring `s.order ?? 0`), whose id is the generated id and whose
timestamps are both `now`; the new session becomes the current domain's
active session, other domains' pointers are untouched, and every
pre-existing session is unchanged. -/
theorem claim_C8_save_appends_with_next_order
    (st : PopupState) (name : String) (resp : BridgeResponse StoredSession)
    (newId : String) (now : Int) (v : String)
    (hval : validateSessionName name = .ok v)
    (hsucc : resp.success = true) :
    ∃ st' new,
      saveCurrentSession st name resp newId now = .ok (st', new) ∧
      st'.sessions = st.sessions ++ [new] ∧
      new.id = newId ∧ new.name = v ∧ new.domain = st.currentDomain ∧
      new.createdAt = now ∧ new.lastUsed = now ∧
      (st.sessions.filter (fun s => s.domain == st.currentDomain) = [] →
        new.order = some 0) ∧
      (∀ s ∈ st.sessions, s.domain = st.currentDomain →
        s.order.getD 0 < new.order.getD 0) ∧
      (st.sessions.filter (fun s => s.domain == st.currentDomain) ≠ [] →
        ∃ s ∈ st.sessions, s.domain = st.currentDomain ∧
          new.order = some (s.order.getD 0 + 1)) ∧
      lookupActive st'.activeSessions st.currentDomain = some newId ∧
      (∀ d, d ≠ st.currentDomain →
        lookupActive st'.activeSessions d = lookupActive st.activeSessions d) := by
  refine ⟨_, _, save_eq_ok st name resp newId now v hval hsucc,
    rfl, rfl, rfl, rfl, rfl, rfl, ?_, ?_, ?_, ?_, ?_⟩
  · intro hnil
    simp [savedSession, hnil, listMax]
  · intro s hs hdom
    have hsf : s ∈ st.sessions.filter (fun t => t.domain == st.currentDomain) :=
      List.mem_filter.mpr ⟨hs, by simp [hdom]⟩
    have hmem : s.order.getD 0 ∈
        (st.sessions.filter (fun t => t.domain == st.currentDomain)).map
          (fun t => t.order.getD 0) :=
      List.mem_map_of_mem _ hsf
    cases hmap : (st.sessions.filter (fun t => t.domain == st.currentDomain)).map
        (fun t => t.order.getD 0) with
    | nil => rw [hmap] at hmem; simp at hmem
    | cons y ys =>
      rw [hmap] at hmem
      have hmax : listMax (y :: ys) = some (ys.foldl max y) := rfl
      have hle : s.order.getD 0 ≤ ys.foldl max y := listMax_ge hmax hmem
      have : (savedSession st resp newId now v).order.getD 0 = ys.foldl max y + 1 := by
        simp [savedSession, hmap, listMax]
      rw [this]
      omega
  · intro hne
    cases hmap : (st.sessions.filter (fun t => t.domain == st.currentDomain)).map
        (fun t => t.order.getD 0) with
    | nil =>
      exact absurd (List.map_eq_nil_iff.mp hmap) hne
    | cons y ys =>
      have hmax : listMax (y :: ys) = some (ys.foldl max y) := rfl
      have hmem := listMax_mem hmax
      rw [← hmap] at hmem
      obtain ⟨s, hsf, hso⟩ := List.mem_map.mp hmem
      refine ⟨s, List.mem_of_mem_filter hsf, ?_, ?_⟩
      · have := List.of_mem_filter hsf
        simpa using this
      · simp [savedSession, hmap, listMax, hso]
  · exact lookupActive_set_self st.activeSessions st.currentDomain newId
  · intro d hd
    exact lookupActive_set_ne st.activeSessions st.currentDomain newId d hd

/-- Witness for C8: saving `fresh` on the concrete store appends a session
with order 2 (= max 1 + 1) and activates it for `example.com`. -/
theorem claim_C8_save_appends_with_next_order_witness :
    ∃ st' new,
      saveCurrentSession exSt "fresh" ⟨true, some exPayload, none⟩ "n1" 10 = .ok (st', new) ∧
      st'.sessions = exSt.sessions ++ [new] ∧
      new.id = "n1" ∧ new.name = "fresh" ∧ new.domain = exSt.currentDomain ∧
      new.createdAt = 10 ∧ new.lastUsed = 10 ∧
      (exSt.sessions.filter (fun s => s.domain == exSt.currentDomain) = [] →
        new.order = some 0) ∧
      (∀ s ∈ exSt.sessions, s.domain = exSt.currentDomain →
        s.order.getD 0 < new.order.getD 0) ∧
      (exSt.sessions.filter (fun s => s.domain == exSt.currentDomain) ≠ [] →
        ∃ s ∈ exSt.sessions, s.domain = exSt.currentDomain ∧
          new.order = some (s.order.getD 0 + 1)) ∧
      lookupActive st'.activeSessions exSt.currentDomain = some "n1" ∧
      (∀ d, d ≠ exSt.currentDomain →
        lookupActive st'.activeSessions d = lookupActive exSt.activeSessions d) :=
  claim_C8_save_appends_with_next_order exSt "fresh" ⟨true, some exPayload, none⟩ "n1" 10
    "fresh" rfl rfl

/-- C10: when the bridge reports success with no session data
(`response.data` null or undefined), neither `saveCurrentSession` nor
`overwriteSessionWithCurrent` fails: both proceed with the default empty
stored-session payload (`response.data ?? storedSessionDefaultValue`). -/
theorem claim_C10_default_payload :
    (∀ (st : PopupState) (name : String) (resp : BridgeResponse StoredSession)
       (newId : String) (now : Int) (v : String),
      validateSessionName name = .ok v → resp.success = true → resp.data = none →
      ∃ st' s, saveCurrentSession st name resp newId now = .ok (st', s) ∧
        s.payload = storedSessionDefaultValue) ∧
    (∀ (st : PopupState) (sid : String) (resp : BridgeResponse StoredSession) (now : Int)
       (s : SessionData),
      st.sessions.find? (fun t => t.id == sid) = some s →
      s.domain = st.currentDomain → resp.success = true → resp.data = none →
      ∃ st', overwriteSessionWithCurrent st sid none resp now = .ok st' ∧
        ∃ t ∈ st'.sessions, t.id = sid ∧ t.payload = storedSessionDefaultValue) := by
  constructor
  · intro st name resp newId now v hval hsucc hdata
    exact ⟨_, _, save_eq_ok st name resp newId now v hval hsucc,
      by simp [savedSession, hdata]⟩
  · intro st sid resp now s hfind hdom hsucc hdata
    have hsid : s.id = sid := by simpa using List.find?_some hfind
    obtain ⟨l₁, l₂, -, -, hupd⟩ :=
      updateFirst_decomp (l := st.sessions)
        (fun t => { t with payload := resp.data.getD storedSessionDefaultValue
                           name := s.name
                           lastUsed := now }) hfind
    refine ⟨_, overwrite_eq_ok st sid none resp now s s.name hfind hdom rfl hsucc, ?_⟩
    refine ⟨{ s with payload := resp.data.getD storedSessionDefaultValue
                     name := s.name
                     lastUsed := now }, ?_, hsid, by simp [hdata]⟩
    simp only [hupd]
    exact List.mem_append.mpr (Or.inr (List.mem_cons_self _ _))

/-- Witness for C10: a success reply carrying `none` data on the concrete
store, for both save and overwrite. -/
theorem claim_C10_default_payload_witness :
    (∃ st' s, saveCurrentSession exSt "fresh" ⟨true, none, none⟩ "n1" 10 = .ok (st', s) ∧
      s.payload = storedSessionDefaultValue) ∧
    (∃ st', overwriteSessionWithCurrent exSt "a" none ⟨true, none, none⟩ 11 = .ok st' ∧
      ∃ t ∈ st'.sessions, t.id = "a" ∧ t.payload = storedSessionDefaultValue) :=
  ⟨claim_C10_default_payload.1 exSt "fresh" ⟨true, none, none⟩ "n1" 10 "fresh" rfl rfl rfl,
   claim_C10_default_payload.2 exSt "a" ⟨true, none, none⟩ 11 exA rfl rfl rfl rfl⟩

/-- Counterexample to C3: on the concrete store, `work` already names
session A in `example.com` (the conflict probe returns A), yet saving the
current session under the name `work` is not rejected: it succeeds and
appends a session. -/
theorem claim_C3_counterexample :
    findSessionByName exSt.sessions exSt.currentDomain "work" none = some exA ∧
    ∃ st' s, saveCurrentSession exSt "work" ⟨true, none, none⟩ "n1" 10 = .ok (st', s) ∧
      st'.sessions.length = exSt.sessions.length + 1 :=
  ⟨rfl, _, _, rfl, rfl⟩

/-- C3 as amended: `saveCurrentSession` performs no duplicate-name check;
even when an existing session of the current domain matches the validated
name case-insensitively after trimming, the save succeeds and appends a
new session with that name.  (Name uniqueness is enforced by
`renameSession` only.) -/
theorem claim_C3_amended_save_ignores_conflicts
    (st : PopupState) (name : String) (resp : BridgeResponse StoredSession)
    (newId : String) (now : Int) (v : String) (c : SessionData)
    (hval : validateSessionName name = .ok v)
    (_hconf : findSessionByName st.sessions st.currentDomain v none = some c)
    (hsucc : resp.success = true) :
    ∃ st' s, saveCurrentSession st name resp newId now = .ok (st', s) ∧
      st'.sessions = st.sessions ++ [s] ∧ s.name = v :=
  ⟨_, _, save_eq_ok st name resp newId now v hval hsucc, rfl, rfl⟩

/-- Witness for the amended C3: saving a second `work` session next to A. -/
theorem claim_C3_amended_save_ignores_conflicts_witness :
    ∃ st' s, saveCurrentSession exSt "work" ⟨true, none, none⟩ "n1" 10 = .ok (st', s) ∧
      st'.sessions = exSt.sessions ++ [s] ∧ s.name = "work" :=
  claim_C3_amended_save_ignores_conflicts exSt "work" ⟨true, none, none⟩ "n1" 10 "work" exA
    rfl rfl rfl

/-! ### C6: delete semantics -/

/-- Counterexample to C6: session C belongs to `b.com` and is `b.com`'s
active session, but the current domain is `example.com`; deleting C
removes it from the store yet leaves `b.com`'s active pointer still aimed
at the deleted id — the claim's "its own domain's pointer is cleared"
fails when the deleted session is not in the current domain. -/
theorem claim_C6_counterexample :
    exC.domain = "b.com" ∧
    lookupActive exSt.activeSessions "b.com" = some exC.id ∧
    (∀ t ∈ (deleteSession exSt exC.id).sessions, t.id ≠ exC.id) ∧
    lookupActive (deleteSession exSt exC.id).activeSessions "b.com" = some exC.id := by
  refine ⟨rfl, rfl, ?_, rfl⟩
  decide

/-- C6 as amended: `deleteSession` removes every session carrying the
given id and is a benign no-op (never an error) when the id is absent; it
clears the *current* domain's active pointer exactly when that pointer
equals the deleted id, and leaves every other domain's pointer untouched.
(The claim's "its own domain" reading only coincides with this when the
deleted session belongs to the current domain.) -/
theorem claim_C6_amended_delete (st : PopupState) (sid : String) :
    (∀ t ∈ (deleteSession st sid).sessions, t.id ≠ sid) ∧
    (∀ t ∈ st.sessions, t.id ≠ sid → t ∈ (deleteSession st sid).sessions) ∧
    (∀ d, d ≠ st.currentDomain →
      lookupActive (deleteSession st sid).activeSessions d =
        lookupActive st.activeSessions d) ∧
    (lookupActive st.activeSessions st.currentDomain = some sid →
      lookupActive (deleteSession st sid).activeSessions st.currentDomain = none) ∧
    (lookupActive st.activeSessions st.currentDomain ≠ some sid →
      (deleteSession st sid).activeSessions = st.activeSessions) ∧
    ((∀ t ∈ st.sessions, t.id ≠ sid) →
      (deleteSession st sid).sessions = st.sessions) := by
  refine ⟨?_, ?_, ?_, ?_, ?_, ?_⟩
  · intro t ht
    have := List.of_mem_filter ht
    simpa using this
  · intro t ht hid
    exact List.mem_filter.mpr ⟨ht, by simpa using hid⟩
  · intro d hd
    unfold deleteSession
    by_cases hc : lookupActive st.activeSessions st.currentDomain = some sid
    · have : (lookupActive st.activeSessions st.currentDomain == some sid) = true := by
        simp [hc]
      simp only [this, if_true]
      exact lookupActive_erase_ne st.activeSessions st.currentDomain d hd
    · have : (lookupActive st.activeSessions st.currentDomain == some sid) = false := by
        simp [hc]
      simp only [this, Bool.false_eq_true, if_false]
  · intro hc
    unfold deleteSession
    have : (lookupActive st.activeSessions st.currentDomain == some sid) = true := by
      simp [hc]
    simp only [this, if_true]
    exact lookupActive_erase_self st.activeSessions st.currentDomain
  · intro hc
    unfold deleteSession
    have : (lookupActive st.activeSessions st.currentDomain == some sid) = false := by
      simp [hc]
    simp only [this, Bool.false_eq_true, if_false]
  · intro habs
    unfold deleteSession
    simp only []
    rw [List.filter_eq_self.mpr]
    intro t ht
    simpa using habs t ht

/-- Witness for the amended C6 at the concrete cross-domain deletion. -/
theorem claim_C6_amended_delete_witness :
    (∀ t ∈ (deleteSession exSt "c").sessions, t.id ≠ "c") ∧
    (∀ t ∈ exSt.sessions, t.id ≠ "c" → t ∈ (deleteSession exSt "c").sessions) ∧
    (∀ d, d ≠ exSt.currentDomain →
      lookupActive (deleteSession exSt "c").activeSessions d =
        lookupActive exSt.activeSessions d) ∧
    (lookupActive exSt.activeSessions exSt.currentDomain = some "c" →
      lookupActive (deleteSession exSt "c").activeSessions exSt.currentDomain = none) ∧
    (lookupActive exSt.activeSessions exSt.currentDomain ≠ some "c" →
      (deleteSession exSt "c").activeSessions = exSt.activeSessions) ∧
    ((∀ t ∈ exSt.sessions, t.id ≠ "c") →
      (deleteSession exSt "c").sessions = exSt.sessions) :=
  claim_C6_amended_delete exSt "c"

/-! ### C9: import merge -/

/-- Counterexample to C9: with an existing session and an imported session
both of domain `""`, the merge keeps the existing session (the import's
domain set drops falsy domains via `filter(Boolean)`), although its domain
appears among the imported sessions' domains. -/
theorem claim_C9_counterexample :
    exEmptyDomE.domain = exEmptyDomI.domain ∧
    mergeSessions [exEmptyDomE] [exEmptyDomI] = [exEmptyDomE, exEmptyDomI] :=
  ⟨rfl, rfl⟩

/-- C9 as amended: for a non-empty import, the merge keeps exactly the
existing sessions whose domain is empty or matches no imported session's
domain, in their original order, and appends all imported sessions;
existing sessions with a *non-empty* domain that appears in the import are
dropped.  (`filter(Boolean)` exempts falsy — empty-string — domains from
replacement.) -/
theorem claim_C9_amended_merge (existing imported : List SessionData)
    (h : imported ≠ []) :
    mergeSessions existing imported =
      existing.filter
        (fun s => decide (s.domain = "" ∨ ∀ t ∈ imported, t.domain ≠ s.domain))
        ++ imported := by
  unfold mergeSessions
  have hlen : (imported.length == 0) = false := by
    cases imported with
    | nil => exact absurd rfl h
    | cons x xs => rfl
  simp only [hlen, Bool.false_eq_true, if_false]
  congr 1
  apply List.filter_congr
  intro s _
  by_cases hd : s.domain = ""
  · have hnc : ((imported.map (fun t => t.domain)).filter (fun d => d != "")).contains
        s.domain = false := by
      rw [← Bool.not_eq_true]
      intro hc
      have hmem := List.mem_of_elem_eq_true hc
      have := List.of_mem_filter hmem
      simp [hd] at this
    simp [hnc, hd]
  · by_cases hex : ∃ t ∈ imported, t.domain = s.domain
    · obtain ⟨t, ht, htd⟩ := hex
      have hc : ((imported.map (fun u => u.domain)).filter (fun d => d != "")).contains
          s.domain = true := by
        apply List.elem_eq_true_of_mem
        refine List.mem_filter.mpr ⟨List.mem_map.mpr ⟨t, ht, htd⟩, by simpa using hd⟩
      have hP : ¬(s.domain = "" ∨ ∀ u ∈ imported, u.domain ≠ s.domain) := by
        rintro (h1 | h2)
        · exact hd h1
        · exact h2 t ht htd
      simp only [hc, Bool.not_true]
      exact (decide_eq_false hP).symm
    · have hc : ((imported.map (fun u => u.domain)).filter (fun d => d != "")).contains
          s.domain = false := by
        rw [← Bool.not_eq_true]
        intro hcon
        have hmem := List.mem_of_elem_eq_true hcon
        obtain ⟨t, ht, htd⟩ := List.mem_map.mp (List.mem_of_mem_filter hmem)
        exact hex ⟨t, ht, htd⟩
      have hP : (s.domain = "" ∨ ∀ t ∈ imported, t.domain ≠ s.domain) :=
        Or.inr (fun t ht htd => hex ⟨t, ht, htd⟩)
      simp only [hc, Bool.not_false]
      exact (decide_eq_true hP).symm

/-- Witness for the amended C9: importing a `example.com` session next to
an existing `example.com` session and a `b.com` session. -/
theorem claim_C9_amended_merge_witness :
    mergeSessions [exA, exC] [exB] =
      ([exA, exC].filter
        (fun s => decide (s.domain = "" ∨ ∀ t ∈ [exB], t.domain ≠ s.domain)))
        ++ [exB] :=
  claim_C9_amended_merge [exA, exC] [exB] (by decide)

/-! ### Inversion lemmas for the successful branches of the operations -/

theorem save_ok_inv {st : PopupState} {name : String} {resp : BridgeResponse StoredSession}
    {newId : String} {now : Int} {st' : PopupState} {s : SessionData}
    (h : saveCurrentSession st name resp newId now = .ok (st', s)) :
    ∃ v, validateSessionName name = .ok v ∧ resp.success = true ∧
      st' = { st with
               sessions := st.sessions ++ [savedSession st resp newId now v]
               activeSessions := setActive st.activeSessions st.currentDomain newId } ∧
      s = savedSession st resp newId now v := by
  unfold saveCurrentSession at h
  split at h
  · simp at h
  · rename_i v hval
    split at h
    · rename_i hsucc
      simp only [Except.ok.injEq, Prod.mk.injEq] at h
      exact ⟨v, hval, hsucc, h.1.symm, h.2.symm⟩
    · simp at h

theorem switch_ok_inv {st : PopupState} {sid : String} {resp : BridgeResponse Unit}
    {now : Int} {st' : PopupState}
    (h : switchToSession st sid resp now = .ok st') :
    ∃ s, st.sessions.find? (fun t => t.id == sid) = some s ∧ resp.success = true ∧
      st' = { st with
               activeSessions := setActive st.activeSessions st.currentDomain sid
               sessions := updateFirst (fun t => t.id == sid)
                 (fun t => { t with lastUsed := now }) st.sessions } := by
  unfold switchToSession at h
  split at h
  · simp at h
  · rename_i s hfind
    split at h
    · rename_i hsucc
      simp only [Except.ok.injEq] at h
      exact ⟨s, hfind, hsucc, h.symm⟩
    · simp at h

theorem overwrite_ok_inv {st : PopupState} {sid : String} {name : Option String}
    {resp : BridgeResponse StoredSession} {now : Int} {st' : PopupState}
    (h : overwriteSessionWithCurrent st sid name resp now = .ok st') :
    ∃ s v, st.sessions.find? (fun t => t.id == sid) = some s ∧
      s.domain = st.currentDomain ∧
      resp.success = true ∧
      st' = { st with
               sessions := updateFirst (fun t => t.id == sid)
                 (fun t => { t with payload := resp.data.getD storedSessionDefaultValue
                                    name := v
                                    lastUsed := now }) st.sessions
               activeSessions := setActive st.activeSessions st.currentDomain s.id } := by
  unfold overwriteSessionWithCurrent at h
  split at h
  · simp at h
  · rename_i s hfind
    split at h
    · simp at h
    · rename_i hbne
      have hdom : s.domain = st.currentDomain := by simpa using hbne
      split at h
      · simp at h
      · rename_i v hval
        split at h
        · rename_i hsucc
          simp only [Except.ok.injEq] at h
          exact ⟨s, v, hfind, hdom, hsucc, h.symm⟩
        · simp at h

theorem rename_ok_inv {st : PopupState} {sid newName : String} {ow : Bool} {st' : PopupState}
    (h : renameSession st sid newName ow = .ok st') :
    ∃ s v, st.sessions.find? (fun t => t.id == sid) = some s ∧
      validateSessionName newName = .ok v ∧
      ((findSessionByName st.sessions s.domain v (some sid) = none ∧
        st' = { st with
                 sessions := updateFirst (fun t => t.id == sid)
                   (fun t => { t with name := v }) st.sessions }) ∨
       (∃ c, findSessionByName st.sessions s.domain v (some sid) = some c ∧ ow = true ∧
        st' = { st with
                 sessions := updateFirst (fun t => t.id == sid)
                   (fun t => { t with name := v })
                   (st.sessions.filter (fun t => t.id != c.id))
                 activeSessions :=
                   if lookupActive st.activeSessions s.domain == some c.id then
                     setActive st.activeSessions s.domain sid
                   else st.activeSessions })) := by
  unfold renameSession at h
  split at h
  · simp at h
  · rename_i s hfind
    split at h
    · simp at h
    · rename_i v hval
      split at h
      · rename_i c hconf
        split at h
        · simp at h
        · rename_i how
          have how' : ow = true := by simpa using how
          simp only [Except.ok.injEq] at h
          exact ⟨s, v, hfind, hval, Or.inr ⟨c, hconf, how', h.symm⟩⟩
      · rename_i hconf
        simp only [Except.ok.injEq] at h
        exact ⟨s, v, hfind, hval, Or.inl ⟨hconf, h.symm⟩⟩

theorem reorder_ok_inv {st : PopupState} {ids : List String} {st' : PopupState}
    (h : reorderSessions st ids = .ok st') :
    st' = { st with
             sessions := reorderFold st.currentDomain ids.enum st.sessions } := by
  unfold reorderSessions at h
  dsimp only [] at h
  split at h
  · simp at h
  · split at h
    · simp at h
    · simp only [Except.ok.injEq] at h
      exact h.symm

theorem createNew_ok_inv {st : PopupState} {resp : BridgeResponse Unit} {st' : PopupState}
    (h : createNewSession st resp = .ok st') :
    resp.success = true ∧
    st' = { st with activeSessions := eraseActive st.activeSessions st.currentDomain } := by
  unfold createNewSession at h
  split at h
  · rename_i hsucc
    simp only [Except.ok.injEq] at h
    exact ⟨hsucc, h.symm⟩
  · simp at h

/-- Unfolding lemma for `deleteSession`. -/
theorem deleteSession_def (st : PopupState) (sid : String) :
    deleteSession st sid = { st with
      sessions := st.sessions.filter (fun s => s.id != sid)
      activeSessions :=
        if lookupActive st.activeSessions st.currentDomain == some sid then
          eraseActive st.activeSessions st.currentDomain
        else st.activeSessions } := rfl

/-- Reordering only rewrites `order` fields: every session keeps a
representative with the same `id` and `domain` through the fold of
`updateFirst` steps. -/
theorem reorderFold_preserves (current : String) (ps : List (Nat × String))
    (l : List SessionData) {s : SessionData} (hs : s ∈ l) :
    ∃ t ∈ reorderFold current ps l,
      t.id = s.id ∧ t.domain = s.domain := by
  induction ps generalizing l s with
  | nil => exact ⟨s, hs, rfl, rfl⟩
  | cons p ps ih =>
    obtain ⟨t, ht, hid, hdom⟩ :=
      exists_same_id_domain_updateFirst
        (fun u => u.domain == current && u.id == p.2)
        (fun u => { u with order := some (p.1 : Int) })
        (fun u => ⟨rfl, rfl⟩) hs
    obtain ⟨t2, ht2, hid2, hdom2⟩ := ih _ ht
    exact ⟨t2, ht2, hid2.trans hid, hdom2.trans hdom⟩

/-- A successful `lookupActive` read exposes its entry in the list. -/
theorem mem_of_lookupActive {m : ActiveSessions} {d v : String}
    (h : lookupActive m d = some v) : (d, v) ∈ m := by
  unfold lookupActive at h
  cases hf : m.find? (fun p => p.1 == d) with
  | none => rw [hf] at h; simp at h
  | some p =>
    rw [hf] at h
    have hp : p.1 = d := by simpa using List.find?_some hf
    have hv : p.2 = v := by simpa using h
    have hm := List.mem_of_find?_eq_some hf
    have : (d, v) = p := by
      rw [← hp, ← hv]
    rw [this]
    exact hm

/-- The concrete two-domain store satisfies the active-pointer invariant. -/
theorem activeInvariant_exSt : activeInvariant exSt := by
  intro d sid h
  have hm := mem_of_lookupActive h
  simp only [exSt, List.mem_cons, List.not_mem_nil, or_false, Prod.mk.injEq] at hm
  rcases hm with ⟨rfl, rfl⟩ | ⟨rfl, rfl⟩
  · exact ⟨exA, by simp [exSt], rfl, rfl⟩
  · exact ⟨exC, by simp [exSt], rfl, rfl⟩

/-! ### C2: preservation of the active-pointer invariant -/

/-- Counterexample to C2: the store satisfies the invariant and ids are
unique, yet switching the `example.com` tab to the stored `b.com` session
(the operation never checks the target's domain) records `example.com ↦ c`
while session `c`'s domain is `b.com` — the invariant is broken. -/
theorem claim_C2_counterexample :
    activeInvariant exSt ∧
    switchToSession exSt "c" ⟨true, none, none⟩ 9 = .ok exStSwitched ∧
    ¬ activeInvariant exStSwitched := by
  refine ⟨activeInvariant_exSt, by rfl, ?_⟩
  intro hinv
  obtain ⟨s, hs, hid, hdom⟩ := hinv "example.com" "c" rfl
  have hall : ∀ t ∈ exStSwitched.sessions, ¬(t.id = "c" ∧ t.domain = "example.com") := by
    decide
  exact hall s hs ⟨hid, hdom⟩

/-- C2 as amended: starting from a store satisfying the active-pointer
invariant with globally unique session ids (both standing invariants of
the spec's data model), every operation preserves the invariant, provided
the two operations that never check domains are applied within the current
domain: `switchToSession`'s target session must belong to the current
domain, and every session carrying `deleteSession`'s id must belong to the
current domain.  Without those provisos the invariant can be broken (see
the counterexample). -/
theorem claim_C2_amended_invariant_preservation
    (st : PopupState)
    (hinv : activeInvariant st)
    (hids : (st.sessions.map SessionData.id).Nodup) :
    (∀ name resp newId now st' s,
      saveCurrentSession st name resp newId now = .ok (st', s) → activeInvariant st') ∧
    (∀ sid resp now st' s,
      st.sessions.find? (fun t => t.id == sid) = some s →
      s.domain = st.currentDomain →
      switchToSession st sid resp now = .ok st' → activeInvariant st') ∧
    (∀ sid newName ow st',
      renameSession st sid newName ow = .ok st' → activeInvariant st') ∧
    (∀ sid name resp now st',
      overwriteSessionWithCurrent st sid name resp now = .ok st' → activeInvariant st') ∧
    (∀ sid,
      (∀ s ∈ st.sessions, s.id = sid → s.domain = st.currentDomain) →
      activeInvariant (deleteSession st sid)) ∧
    (∀ ids st', reorderSessions st ids = .ok st' → activeInvariant st') ∧
    (∀ resp st', createNewSession st resp = .ok st' → activeInvariant st') := by
  refine ⟨?_, ?_, ?_, ?_, ?_, ?_, ?_⟩
  · -- saveCurrentSession
    intro name resp newId now st' s h
    obtain ⟨v, hval, hsucc, rfl, rfl⟩ := save_ok_inv h
    intro d sid hl
    by_cases hd : d = st.currentDomain
    · subst hd
      rw [lookupActive_set_self] at hl
      obtain rfl : newId = sid := by simpa using hl
      exact ⟨savedSession st resp newId now v,
        List.mem_append_right _ (List.mem_cons_self _ _), rfl, rfl⟩
    · rw [lookupActive_set_ne _ _ _ _ hd] at hl
      obtain ⟨w, hw, hwid, hwdom⟩ := hinv d sid hl
      exact ⟨w, List.mem_append_left _ hw, hwid, hwdom⟩
  · -- switchToSession
    intro sid resp now st' s hfind hdom h
    obtain ⟨s2, hfind2, hsucc, rfl⟩ := switch_ok_inv h
    obtain rfl : s = s2 := by rw [hfind] at hfind2; simpa using hfind2
    intro d sid' hl
    by_cases hd : d = st.currentDomain
    · subst hd
      rw [lookupActive_set_self] at hl
      obtain rfl : sid = sid' := by simpa using hl
      have hsid : s.id = sid := by simpa using List.find?_some hfind
      obtain ⟨t, ht, htid, htdom⟩ :=
        exists_same_id_domain_updateFirst (fun t => t.id == sid)
          (fun t => { t with lastUsed := now }) (fun u => ⟨rfl, rfl⟩)
          (List.mem_of_find?_eq_some hfind)
      exact ⟨t, ht, htid.trans hsid, htdom.trans hdom⟩
    · rw [lookupActive_set_ne _ _ _ _ hd] at hl
      obtain ⟨w, hw, hwid, hwdom⟩ := hinv d sid' hl
      obtain ⟨t, ht, htid, htdom⟩ :=
        exists_same_id_domain_updateFirst (fun t => t.id == sid)
          (fun t => { t with lastUsed := now }) (fun u => ⟨rfl, rfl⟩) hw
      exact ⟨t, ht, htid.trans hwid, htdom.trans hwdom⟩
  · -- renameSession
    intro sid newName ow st' h
    obtain ⟨s, v, hfind, hval, hcase⟩ := rename_ok_inv h
    have hsid : s.id = sid := by simpa using List.find?_some hfind
    rcases hcase with ⟨-, rfl⟩ | ⟨c, hconf, -, rfl⟩
    · intro d sid' hl
      obtain ⟨w, hw, hwid, hwdom⟩ := hinv d sid' hl
      obtain ⟨t, ht, htid, htdom⟩ :=
        exists_same_id_domain_updateFirst (fun t => t.id == sid)
          (fun t => { t with name := v }) (fun u => ⟨rfl, rfl⟩) hw
      exact ⟨t, ht, htid.trans hwid, htdom.trans hwdom⟩
    · have hconf' := hconf
      unfold findSessionByName at hconf'
      have hcmem : c ∈ st.sessions := List.mem_of_find?_eq_some hconf'
      have hcp := List.find?_some hconf'
      simp only [Bool.and_eq_true, beq_iff_eq, bne_iff_ne, ne_eq] at hcp
      have hcdom : c.domain = s.domain := hcp.1.1
      have hcid : c.id ≠ sid := by
        intro he
        exact hcp.1.2 (by simp [he])
      have htarget : s ∈ st.sessions.filter (fun t => t.id != c.id) := by
        refine List.mem_filter.mpr ⟨List.mem_of_find?_eq_some hfind, ?_⟩
        simp only [bne_iff_ne, ne_eq, hsid]
        exact fun he => hcid he.symm
      intro d sid' hl
      by_cases hact : lookupActive st.activeSessions s.domain = some c.id
      · have hcond : (lookupActive st.activeSessions s.domain == some c.id) = true := by
          simp [hact]
        simp only [hcond, if_true] at hl
        by_cases hd : d = s.domain
        · subst hd
          rw [lookupActive_set_self] at hl
          obtain rfl : sid = sid' := by simpa using hl
          obtain ⟨t, ht, htid, htdom⟩ :=
            exists_same_id_domain_updateFirst (fun t => t.id == sid)
              (fun t => { t with name := v }) (fun u => ⟨rfl, rfl⟩) htarget
          exact ⟨t, ht, htid.trans hsid, htdom⟩
        · rw [lookupActive_set_ne _ _ _ _ hd] at hl
          obtain ⟨w, hw, hwid, hwdom⟩ := hinv d sid' hl
          have hwc : w.id ≠ c.id := by
            intro hwc
            obtain rfl : w = c := eq_of_nodup_ids hids hw hcmem hwc
            exact hd (hwdom.symm.trans hcdom)
          have hwfil : w ∈ st.sessions.filter (fun t => t.id != c.id) := by
            refine List.mem_filter.mpr ⟨hw, ?_⟩
            simpa using hwc
          obtain ⟨t, ht, htid, htdom⟩ :=
            exists_same_id_domain_updateFirst (fun t => t.id == sid)
              (fun t => { t with name := v }) (fun u => ⟨rfl, rfl⟩) hwfil
          exact ⟨t, ht, htid.trans hwid, htdom.trans hwdom⟩
      · have hcond : (lookupActive st.activeSessions s.domain == some c.id) = false := by
          simp [hact]
        simp only [hcond, Bool.false_eq_true, if_false] at hl
        obtain ⟨w, hw, hwid, hwdom⟩ := hinv d sid' hl
        have hwc : w.id ≠ c.id := by
          intro hwc
          obtain rfl : w = c := eq_of_nodup_ids hids hw hcmem hwc
          apply hact
          rw [← hcdom, hwdom, hl, hwid]
        have hwfil : w ∈ st.sessions.filter (fun t => t.id != c.id) := by
          refine List.mem_filter.mpr ⟨hw, ?_⟩
          simpa using hwc
        obtain ⟨t, ht, htid, htdom⟩ :=
          exists_same_id_domain_updateFirst (fun t => t.id == sid)
            (fun t => { t with name := v }) (fun u => ⟨rfl, rfl⟩) hwfil
        exact ⟨t, ht, htid.trans hwid, htdom.trans hwdom⟩
  · -- overwriteSessionWithCurrent
    intro sid name resp now st' h
    obtain ⟨s, v, hfind, hdom, hsucc, rfl⟩ := overwrite_ok_inv h
    intro d sid' hl
    by_cases hd : d = st.currentDomain
    · subst hd
      rw [lookupActive_set_self] at hl
      obtain rfl : s.id = sid' := by simpa using hl
      obtain ⟨t, ht, htid, htdom⟩ :=
        exists_same_id_domain_updateFirst (fun t => t.id == sid)
          (fun t => { t with payload := resp.data.getD storedSessionDefaultValue
                             name := v
                             lastUsed := now }) (fun u => ⟨rfl, rfl⟩)
          (List.mem_of_find?_eq_some hfind)
      exact ⟨t, ht, htid, htdom.trans hdom⟩
    · rw [lookupActive_set_ne _ _ _ _ hd] at hl
      obtain ⟨w, hw, hwid, hwdom⟩ := hinv d sid' hl
      obtain ⟨t, ht, htid, htdom⟩ :=
        exists_same_id_domain_updateFirst (fun t => t.id == sid)
          (fun t => { t with payload := resp.data.getD storedSessionDefaultValue
                             name := v
                             lastUsed := now }) (fun u => ⟨rfl, rfl⟩) hw
      exact ⟨t, ht, htid.trans hwid, htdom.trans hwdom⟩
  · -- deleteSession
    intro sid hdel
    rw [deleteSession_def]
    intro d sid' hl
    by_cases hact : lookupActive st.activeSessions st.currentDomain = some sid
    · have hcond : (lookupActive st.activeSessions st.currentDomain == some sid) = true := by
        simp [hact]
      simp only [hcond, if_true] at hl
      by_cases hd : d = st.currentDomain
      · subst hd
        rw [lookupActive_erase_self] at hl
        cases hl
      · rw [lookupActive_erase_ne _ _ _ hd] at hl
        obtain ⟨w, hw, hwid, hwdom⟩ := hinv d sid' hl
        have hws : w.id ≠ sid := by
          intro he
          exact hd (hwdom.symm.trans (hdel w hw he))
        have hwfil : w ∈ st.sessions.filter (fun s => s.id != sid) := by
          refine List.mem_filter.mpr ⟨hw, ?_⟩
          simpa using hws
        exact ⟨w, hwfil, hwid, hwdom⟩
    · have hcond : (lookupActive st.activeSessions st.currentDomain == some sid) = false := by
        simp [hact]
      simp only [hcond, Bool.false_eq_true, if_false] at hl
      obtain ⟨w, hw, hwid, hwdom⟩ := hinv d sid' hl
      have hws : w.id ≠ sid := by
        intro he
        apply hact
        rw [← hdel w hw he, hwdom, hl, ← hwid, he]
      have hwfil : w ∈ st.sessions.filter (fun s => s.id != sid) := by
        refine List.mem_filter.mpr ⟨hw, ?_⟩
        simpa using hws
      exact ⟨w, hwfil, hwid, hwdom⟩
  · -- reorderSessions
    intro ids st' h
    obtain rfl := reorder_ok_inv h
    intro d sid hl
    obtain ⟨w, hw, hwid, hwdom⟩ := hinv d sid hl
    obtain ⟨t, ht, htid, htdom⟩ :=
      reorderFold_preserves st.currentDomain ids.enum st.sessions hw
    exact ⟨t, ht, htid.trans hwid, htdom.trans hwdom⟩
  · -- createNewSession
    intro resp st' h
    obtain ⟨hsucc, rfl⟩ := createNew_ok_inv h
    intro d sid hl
    by_cases hd : d = st.currentDomain
    · subst hd
      rw [lookupActive_erase_self] at hl
      cases hl
    · rw [lookupActive_erase_ne _ _ _ hd] at hl
      exact hinv d sid hl

/-- Witness for the amended C2: deleting session `a` (a current-domain
session) from the concrete invariant-satisfying store keeps the invariant. -/
theorem claim_C2_amended_invariant_preservation_witness :
    activeInvariant (deleteSession exSt "a") :=
  (claim_C2_amended_invariant_preservation exSt activeInvariant_exSt
    (by decide)).2.2.2.2.1 "a" (by decide)

/-! ### C7: reorder -/

theorem reorderFold_nil (current : String) (ps : List (Nat × String)) :
    reorderFold current ps [] = [] := by
  induction ps with
  | nil => rfl
  | cons p ps ih => exact ih

theorem reorderFold_cons_skip (current : String) (x : SessionData)
    (ps : List (Nat × String)) (xs : List SessionData)
    (h : ∀ p ∈ ps, (x.domain == current && x.id == p.2) = false) :
    reorderFold current ps (x :: xs) = x :: reorderFold current ps xs := by
  induction ps generalizing xs with
  | nil => rfl
  | cons p ps ih =>
    have hx := h p (List.mem_cons_self _ _)
    have hstep : updateFirst (fun s => s.domain == current && s.id == p.2)
        (fun s => { s with order := some (p.1 : Int) }) (x :: xs) =
        x :: updateFirst (fun s => s.domain == current && s.id == p.2)
          (fun s => { s with order := some (p.1 : Int) }) xs := by
      simp only [updateFirst, hx, Bool.false_eq_true, if_false]
    show reorderFold current ps (updateFirst _ _ (x :: xs)) = _
    rw [hstep]
    exact ih _ (fun q hq => h q (List.mem_cons_of_mem _ hq))

/-- The reorder assignment loop, under unique pair ids and unique
current-domain session ids, acts pointwise: each current-domain session
whose id occurs in the pair list receives the paired index as its order;
every other session is untouched. -/
theorem reorderFold_eq_map (current : String) (l : List SessionData) :
    ∀ (ps : List (Nat × String)),
      (ps.map Prod.snd).Nodup →
      ((l.filter (fun s => s.domain == current)).map SessionData.id).Nodup →
      reorderFold current ps l = l.map (fun s =>
        match ps.find? (fun p => p.2 == s.id) with
        | some p => if s.domain == current then { s with order := some (p.1 : Int) } else s
        | none => s) := by
  induction l with
  | nil =>
    intro ps hps hl
    simp [reorderFold_nil]
  | cons x xs ih =>
    intro ps hps hl
    by_cases hxdom : (x.domain == current) = true
    · have hfilter : (x :: xs).filter (fun s => s.domain == current) =
          x :: xs.filter (fun s => s.domain == current) := by
        simp [List.filter_cons, hxdom]
      rw [hfilter] at hl
      simp only [List.map_cons, List.nodup_cons] at hl
      obtain ⟨hxnotin, hlxs⟩ := hl
      cases hfind : ps.find? (fun p => p.2 == x.id) with
      | none =>
        have hnone := List.find?_eq_none.mp hfind
        have hskip : ∀ p ∈ ps, (x.domain == current && x.id == p.2) = false := by
          intro p hp
          have h1 : (p.2 == x.id) = false := by
            have := hnone p hp
            simpa using this
          have h2 : (x.id == p.2) = false := by
            rw [beq_eq_false_iff_ne] at h1 ⊢
            exact fun he => h1 he.symm
          simp [h2]
        rw [reorderFold_cons_skip current x ps xs hskip, List.map_cons]
        rw [ih ps hps hlxs]
        simp [hfind]
      | some p₀ =>
        have hp₀2 : p₀.2 = x.id := by simpa using List.find?_some hfind
        obtain ⟨ps₁, ps₂, hpseq, hps₁, -⟩ := updateFirst_decomp (f := fun p => p) hfind
        subst hpseq
        have hsnd : (ps₁.map Prod.snd).Nodup ∧ p₀.2 ∉ ps₂.map Prod.snd ∧
            (ps₂.map Prod.snd).Nodup ∧
            ∀ b ∈ ps₁.map Prod.snd, b ∉ p₀.2 :: ps₂.map Prod.snd := by
          have h := hps
          simp only [List.map_append, List.map_cons, List.nodup_append,
            List.nodup_cons] at h
          refine ⟨h.1, h.2.1.1, h.2.1.2, ?_⟩
          intro b hb hmem
          exact h.2.2 hb hmem
        have hps₂ne : ∀ p ∈ ps₂, (x.id == p.2) = false := by
          intro p hp
          rw [beq_eq_false_iff_ne]
          intro he
          exact hsnd.2.1 (hp₀2 ▸ he ▸ List.mem_map_of_mem Prod.snd hp)
        have hps₁' : ∀ p ∈ ps₁, (x.domain == current && x.id == p.2) = false := by
          intro p hp
          have h1 : (p.2 == x.id) = false := hps₁ p hp
          have h2 : (x.id == p.2) = false := by
            rw [beq_eq_false_iff_ne] at h1 ⊢
            exact fun he => h1 he.symm
          simp [h2]
        have hps₂' : ∀ p ∈ ps₂,
            ((({ x with order := some (p₀.1 : Int) } : SessionData).domain == current) &&
              (({ x with order := some (p₀.1 : Int) } : SessionData).id == p.2)) = false := by
          intro p hp
          have := hps₂ne p hp
          simp [this]
        have hpred : (x.domain == current && x.id == p₀.2) = true := by
          simp [hxdom, hp₀2]
        have hchain : reorderFold current (ps₁ ++ p₀ :: ps₂) (x :: xs) =
            { x with order := some (p₀.1 : Int) } :: reorderFold current (ps₁ ++ ps₂) xs := by
          calc reorderFold current (ps₁ ++ p₀ :: ps₂) (x :: xs)
              = reorderFold current (p₀ :: ps₂) (reorderFold current ps₁ (x :: xs)) := by
                simp [reorderFold, List.foldl_append]
            _ = reorderFold current (p₀ :: ps₂) (x :: reorderFold current ps₁ xs) := by
                rw [reorderFold_cons_skip current x ps₁ xs hps₁']
            _ = reorderFold current ps₂
                  (updateFirst (fun s => s.domain == current && s.id == p₀.2)
                    (fun s => { s with order := some (p₀.1 : Int) })
                    (x :: reorderFold current ps₁ xs)) := rfl
            _ = reorderFold current ps₂
                  ({ x with order := some (p₀.1 : Int) } :: reorderFold current ps₁ xs) := by
                simp only [updateFirst, hpred, if_true]
            _ = { x with order := some (p₀.1 : Int) } ::
                  reorderFold current ps₂ (reorderFold current ps₁ xs) := by
                rw [reorderFold_cons_skip current _ ps₂ _ hps₂']
            _ = { x with order := some (p₀.1 : Int) } ::
                  reorderFold current (ps₁ ++ ps₂) xs := by
                simp [reorderFold, List.foldl_append]
        rw [hchain, List.map_cons]
        have hsub : ((ps₁ ++ ps₂).map Prod.snd).Nodup := by
          refine List.Nodup.sublist ?_ hps
          simp only [List.map_append, List.map_cons]
          exact List.Sublist.append_left (List.sublist_cons_self _ _) _
        rw [ih (ps₁ ++ ps₂) hsub hlxs]
        have hhead : (match (ps₁ ++ p₀ :: ps₂).find? (fun p => p.2 == x.id) with
            | some p => if (x.domain == current) = true then
                { x with order := some (p.1 : Int) } else x
            | none => x) = { x with order := some (p₀.1 : Int) } := by
          rw [hfind]
          simp [hxdom]
        rw [hhead]
        congr 1
        apply List.map_congr_left
        intro s hs
        by_cases hsdom : (s.domain == current) = true
        · have hsid : s.id ≠ x.id := by
            intro he
            apply hxnotin
            rw [← he]
            exact List.mem_map_of_mem _ (List.mem_filter.mpr ⟨hs, hsdom⟩)
          have hq : ((fun p => p.2 == s.id) p₀) = false := by
            simp only [beq_eq_false_iff_ne]
            rw [hp₀2]
            exact fun he => hsid he.symm
          have hsame : (ps₁ ++ p₀ :: ps₂).find? (fun p => p.2 == s.id) =
              (ps₁ ++ ps₂).find? (fun p => p.2 == s.id) := by
            rw [List.find?_append, List.find?_append]
            congr 1
            simp only [List.find?_cons, hq]
          rw [hsame]
        · cases h1 : (ps₁ ++ p₀ :: ps₂).find? (fun p => p.2 == s.id) <;>
            cases h2 : (ps₁ ++ ps₂).find? (fun p => p.2 == s.id) <;>
            simp [hsdom]
    · have hxdom' : (x.domain == current) = false := by
        rw [Bool.eq_false_iff]
        exact hxdom
      have hskip : ∀ p ∈ ps, (x.domain == current && x.id == p.2) = false := by
        intro p _
        simp [hxdom']
      rw [reorderFold_cons_skip current x ps xs hskip, List.map_cons]
      have hltail : ((xs.filter (fun s => s.domain == current)).map SessionData.id).Nodup := by
        have : (x :: xs).filter (fun s => s.domain == current) =
            xs.filter (fun s => s.domain == current) := by
          simp [List.filter_cons, hxdom']
        rwa [this] at hl
      rw [ih ps hps hltail]
      cases hfind : ps.find? (fun p => p.2 == x.id) <;> simp [hxdom']

/-- `find?` over an enumeration locates the index of the first occurrence. -/
theorem enumFrom_find?_indexOf (a : String) (l : List String) (n : Nat) (ha : a ∈ l) :
    (List.enumFrom n l).find? (fun p => p.2 == a) = some (n + List.indexOf a l, a) := by
  induction l generalizing n with
  | nil => simp at ha
  | cons x xs ih =>
    by_cases hx : x = a
    · subst hx
      simp [List.enumFrom_cons, List.find?_cons, List.indexOf_cons_self]
    · have hxa : (x == a) = false := by
        rw [beq_eq_false_iff_ne]
        exact hx
      have ha' : a ∈ xs := by
        rcases List.mem_cons.mp ha with he | h
        · exact absurd he.symm hx
        · exact h
      rw [List.enumFrom_cons, List.find?_cons]
      simp only [hxa]
      rw [ih (n + 1) ha', List.indexOf_cons_ne _ hx]
      congr 2
      omega

/-- A list whose Finset of elements is as large as the list is
duplicate-free. -/
theorem nodup_of_toFinset_card_eq_length {l : List String}
    (h : l.toFinset.card = l.length) : l.Nodup := by
  rw [List.card_toFinset] at h
  exact List.dedup_eq_self.mp (List.Sublist.eq_of_length (List.dedup_sublist l) h)

/-- C7: `reorderSessions` fails — leaving the store untouched, since both
guards precede every mutation — whenever the supplied list's length
differs from the current domain's session count or the supplied id set
differs from the domain's id set; otherwise it succeeds, assigning
`order = index` to each current-domain session according to its id's
position in the list and leaving every other session and the active
pointers unchanged.  The standing data-model invariant that session ids
are unique (here: within the current domain) is a hypothesis. -/
theorem claim_C7_reorder_guards_and_assignment (st : PopupState) (ids : List String)
    (hl : ((st.sessions.filter (fun s => s.domain == st.currentDomain)).map
      SessionData.id).Nodup) :
    ((ids.length ≠ (st.sessions.filter (fun s => s.domain == st.currentDomain)).length ∨
      ids.toFinset ≠ ((st.sessions.filter (fun s => s.domain == st.currentDomain)).map
        SessionData.id).toFinset) →
      ∃ e, reorderSessions st ids = .error e) ∧
    ((ids.length = (st.sessions.filter (fun s => s.domain == st.currentDomain)).length ∧
      ids.toFinset = ((st.sessions.filter (fun s => s.domain == st.currentDomain)).map
        SessionData.id).toFinset) →
      ∃ st', reorderSessions st ids = .ok st' ∧
        st'.activeSessions = st.activeSessions ∧
        st'.currentDomain = st.currentDomain ∧
        st'.sessions = st.sessions.map (fun s =>
          if s.domain = st.currentDomain then
            { s with order := some (List.indexOf s.id ids : Int) }
          else s)) := by
  constructor
  · intro hfail
    by_cases hlen : ids.length =
        (st.sessions.filter (fun s => s.domain == st.currentDomain)).length
    · have hset : ids.toFinset ≠
          ((st.sessions.filter (fun s => s.domain == st.currentDomain)).map
            SessionData.id).toFinset := by
        rcases hfail with h | h
        · exact absurd hlen h
        · exact h
      have hnotall : ¬∀ s ∈ st.sessions.filter (fun t => t.domain == st.currentDomain),
          s.id ∈ ids := by
        intro hall
        apply hset
        have hsubset : ((st.sessions.filter (fun s => s.domain == st.currentDomain)).map
            SessionData.id).toFinset ⊆ ids.toFinset := by
          intro a hain
          rw [List.mem_toFinset] at hain ⊢
          obtain ⟨s, hs, rfl⟩ := List.mem_map.mp hain
          exact hall s hs
        have hcard : ids.toFinset.card ≤
            ((st.sessions.filter (fun s => s.domain == st.currentDomain)).map
              SessionData.id).toFinset.card := by
          calc ids.toFinset.card ≤ ids.length := List.toFinset_card_le ids
            _ = ((st.sessions.filter (fun s => s.domain == st.currentDomain)).map
                SessionData.id).length := by rw [hlen, List.length_map]
            _ = ((st.sessions.filter (fun s => s.domain == st.currentDomain)).map
                SessionData.id).toFinset.card := (List.toFinset_card_of_nodup hl).symm
        exact (Finset.eq_of_subset_of_card_le hsubset hcard).symm
      have hguard1 : (ids.length !=
          (st.sessions.filter (fun s => s.domain == st.currentDomain)).length) = false := by
        simp [hlen]
      have hguard2 : ((st.sessions.filter (fun s => s.domain == st.currentDomain)).all
          (fun s => ids.contains s.id)) = false := by
        rw [Bool.eq_false_iff]
        intro hall
        apply hnotall
        intro s hs
        have := List.all_eq_true.mp hall s hs
        exact List.mem_of_elem_eq_true this
      refine ⟨⟨"Invalid session IDs provided for reorder operation"⟩, ?_⟩
      unfold reorderSessions
      dsimp only []
      rw [hguard1]
      simp only [Bool.false_eq_true, if_false, hguard2, Bool.not_false, if_true]
    · have hguard1 : (ids.length !=
          (st.sessions.filter (fun s => s.domain == st.currentDomain)).length) = true := by
        simpa using hlen
      refine ⟨⟨"Session count mismatch during reorder operation"⟩, ?_⟩
      unfold reorderSessions
      dsimp only []
      rw [hguard1]
      simp only [if_true]
  · intro ⟨hlen, hset⟩
    have hidsnodup : ids.Nodup := by
      apply nodup_of_toFinset_card_eq_length
      calc ids.toFinset.card
          = ((st.sessions.filter (fun s => s.domain == st.currentDomain)).map
              SessionData.id).toFinset.card := by rw [hset]
        _ = ((st.sessions.filter (fun s => s.domain == st.currentDomain)).map
              SessionData.id).length := List.toFinset_card_of_nodup hl
        _ = ids.length := by rw [List.length_map, ← hlen]
    have hmemids : ∀ s ∈ st.sessions.filter (fun t => t.domain == st.currentDomain),
        s.id ∈ ids := by
      intro s hs
      have : s.id ∈ ((st.sessions.filter (fun t => t.domain == st.currentDomain)).map
          SessionData.id).toFinset := by
        rw [List.mem_toFinset]
        exact List.mem_map_of_mem _ hs
      rw [← hset, List.mem_toFinset] at this
      exact this
    have hguard1 : (ids.length !=
        (st.sessions.filter (fun s => s.domain == st.currentDomain)).length) = false := by
      simp [hlen]
    have hguard2 : ((st.sessions.filter (fun s => s.domain == st.currentDomain)).all
        (fun s => ids.contains s.id)) = true := by
      rw [List.all_eq_true]
      intro s hs
      exact List.elem_eq_true_of_mem (hmemids s hs)
    have hok : reorderSessions st ids =
        .ok { st with sessions := reorderFold st.currentDomain ids.enum st.sessions } := by
      unfold reorderSessions
      dsimp only []
      rw [hguard1]
      simp only [Bool.false_eq_true, if_false, hguard2, Bool.not_true, if_false]
    refine ⟨_, hok, rfl, rfl, ?_⟩
    have henumsnd : (ids.enum.map Prod.snd).Nodup := by
      rw [List.enum_map_snd]
      exact hidsnodup
    rw [reorderFold_eq_map st.currentDomain st.sessions ids.enum henumsnd hl]
    apply List.map_congr_left
    intro s hs
    by_cases hsdom : s.domain = st.currentDomain
    · have hsdom' : (s.domain == st.currentDomain) = true := by simp [hsdom]
      have hsid : s.id ∈ ids := hmemids s (List.mem_filter.mpr ⟨hs, hsdom'⟩)
      have hfind := enumFrom_find?_indexOf s.id ids 0 hsid
      rw [show ids.enum = List.enumFrom 0 ids from rfl] at *
      rw [hfind]
      simp [hsdom]
    · have hsdom' : (s.domain == st.currentDomain) = false := by simp [hsdom]
      cases hfind : (ids.enum).find? (fun p => p.2 == s.id) <;> simp [hsdom', hsdom]

/-- Witness for C7 on the spec's scenario: `reorder([B.id, A.id])` gives
A order 1 and B order 0, leaving the `b.com` session and the pointers
alone. -/
theorem claim_C7_reorder_guards_and_assignment_witness :
    ((["b", "a"].length ≠ (exSt.sessions.filter
        (fun s => s.domain == exSt.currentDomain)).length ∨
      (["b", "a"] : List String).toFinset ≠ ((exSt.sessions.filter
        (fun s => s.domain == exSt.currentDomain)).map SessionData.id).toFinset) →
      ∃ e, reorderSessions exSt ["b", "a"] = .error e) ∧
    ((["b", "a"].length = (exSt.sessions.filter
        (fun s => s.domain == exSt.currentDomain)).length ∧
      (["b", "a"] : List String).toFinset = ((exSt.sessions.filter
        (fun s => s.domain == exSt.currentDomain)).map SessionData.id).toFinset) →
      ∃ st', reorderSessions exSt ["b", "a"] = .ok st' ∧
        st'.activeSessions = exSt.activeSessions ∧
        st'.currentDomain = exSt.currentDomain ∧
        st'.sessions = exSt.sessions.map (fun s =>
          if s.domain = exSt.currentDomain then
            { s with order := some (List.indexOf s.id ["b", "a"] : Int) }
          else s)) :=
  claim_C7_reorder_guards_and_assignment exSt ["b", "a"] (by decide)

end BitX
